import Mathlib

/-!
# Focus navigation of `Aether::Container` and the `requests::request` call

A shallow embedding of `libs/Aether/source/base/Container.cpp` and of
`source/requests.cpp`.

Objects are referred to by address (`Ptr`); a null pointer is `none` of
`Option Ptr`.  The container state carries the object store `obj`, so the
pointer comparison `children[i] == focused()` is a comparison of addresses and
one object cannot appear with two different contents.

Coordinates are C++ `int`s.  They are embedded as `Int`; signed overflow is
undefined behaviour in the source and is not modelled.

The distance lambdas compute `sqrt(pow(a, 2) + pow(b, 2))` in `double`, and
`std::function<int(Element *, Element *)>` converts the result to `int`.
`sqrtPow` embeds that computation on integers: each square and their sum are
rounded to the nearest `double` (53-bit significand, ties to even), the square
root is the correctly rounded one, and the conversion truncates.  The result
is therefore not always the integer square root of the sum of squares: just
below a perfect square the `double` square root rounds up to the next
integer.  The conversion is defined in the source only while the value is at
most `INT_MAX`; `sqrtPow` returns the value itself, and the theorems that
depend on a distance state that range.
-/

namespace Aether

/-- Address of an `Element` object (never null). -/
abbrev Ptr := Nat

/-- Mirror of `EventType`, the five cases `Container::handleEvent` switches on. -/
inductive EventType where
  | ButtonPressed
  | ButtonReleased
  | TouchPressed
  | TouchMoved
  | TouchReleased
  deriving DecidableEq, Repr

/-- Mirror of `Button`: the four d-pad keys named in `Container::handleEvent`,
and every other key of the enumeration (no `case` of the inner `switch`). -/
inductive Button where
  | DPAD_RIGHT
  | DPAD_LEFT
  | DPAD_UP
  | DPAD_DOWN
  | other (code : Nat)
  deriving DecidableEq, Repr

/-- The part of `InputEvent` that `Container::handleEvent` reads:
`e->type()` and `e->button()`. -/
structure InputEvent where
  type : EventType
  button : Button
  deriving DecidableEq, Repr

/-- A child object as seen by its parent container: the getters
`x() y() w() h() hidden() selectable() hasSelectable()`, the active flag, and
the result of its virtual `handleEvent` for each event. -/
structure Element where
  x : Int
  y : Int
  w : Int
  h : Int
  hidden : Bool
  selectable : Bool
  hasSelectable : Bool
  active : Bool
  handleEvent : InputEvent → Bool

/-- State of a `Container`: the object store, its own `hidden()` flag, the
`children` vector and the `focused()` pointer. -/
structure Container where
  obj : Ptr → Element
  hidden : Bool
  children : List Ptr
  focused : Option Ptr

/-- What one call of `Container::handleEvent` does: its return value, the
container afterwards, and the children whose `handleEvent` it invoked, in
order of invocation. -/
structure Handled where
  ret : Bool
  state : Container
  calls : List Ptr

/-- Value of `std::numeric_limits<int>::max()` for the 32-bit `int`. -/
def INT_MAX : Int := 2147483647

/-- Modelled from the spec: `Element::setInactive` (Element.cpp is not in
src/) clears the active flag of the element. -/
def Element.setInactive (e : Element) : Element :=
  { e with active := false }

/-- Modelled from the spec: `Element::setFocused` (Element.cpp is not in
src/) stores the focused-child pointer. -/
def Container.setFocused (c : Container) (e : Option Ptr) : Container :=
  { c with focused := e }

/-- Modelled from the spec: `Element::addElementAt` (Element.cpp is not in
src/) inserts the pointer at position `i` of the ordered children sequence
(`i ≤ children.size()` is the precondition of the vector insertion). -/
def Element.addElementAt (c : Container) (e : Ptr) (i : Nat) : Container :=
  { c with children := c.children.take i ++ e :: c.children.drop i }

/-- Modelled from the spec: `Element::removeAllElements` (Element.cpp is not
in src/) destroys the children and empties the sequence. -/
def Element.removeAllElements (c : Container) : Container :=
  { c with children := [] }

/-- The constructor `Container::Container`: no children, null focus. -/
def Container.new (obj : Ptr → Element) (hidden : Bool) : Container :=
  { obj := obj, hidden := hidden, children := [], focused := none }

/-- Embedding of `Container::addElementAt`. -/
def Container.addElementAt (c : Container) (e : Ptr) (i : Nat) : Container :=
  let c1 : Container := { c with obj := Function.update c.obj e (c.obj e).setInactive }
  let c2 := Element.addElementAt c1 e i
  if ((c2.obj e).selectable || (c2.obj e).hasSelectable) && c2.focused == none then
    c2.setFocused (some e)
  else
    c2

/-- Embedding of `Container::addElement`. -/
def Container.addElement (c : Container) (e : Ptr) : Container :=
  c.addElementAt e c.children.length

/-- Embedding of `Container::removeAllElements`. -/
def Container.removeAllElements (c : Container) : Container :=
  Element.removeAllElements (c.setFocused none)

/-- The `double` nearest to the natural number `n` (round to nearest, ties to
even, 53-bit significand): the value of `n` after an arithmetic operation in
`double`. -/
def roundDouble (n : Nat) : Nat :=
  if n < 2 ^ 53 then n
  else
    let u := 2 ^ (Nat.log2 n - 52)
    let q := n / u
    let r := n % u
    if 2 * r < u then q * u
    else if u < 2 * r then (q + 1) * u
    else if q % 2 = 0 then q * u
    else (q + 1) * u

/-- The `double` `sqrt(m)` converted to `int`, for a `double` `m` that is a
natural number: the correctly rounded square root, truncated.  With `k` the
integer square root of `m`, the rounded root reaches `k + 1` exactly when the
true root lies above `k + 1` minus half the spacing `2 ^ (log2 k - 52)` of the
doubles below `k + 1`. -/
def sqrtDouble (m : Nat) : Nat :=
  let k := Nat.sqrt m
  if k * k = m then k
  else
    let t := 2 ^ (53 - Nat.log2 k)
    if ((k + 1) * t - 1) ^ 2 < m * t ^ 2 then k + 1 else k

/-- The expression `sqrt(pow(a, 2) + pow(b, 2))` of the `dist` lambdas for
`int` values `a` and `b`, converted to `int`. -/
def sqrtPow (a b : Int) : Int :=
  (sqrtDouble (roundDouble (roundDouble (a.natAbs ^ 2) + roundDouble (b.natAbs ^ 2))) : Int)

/-- The square root of `v` truncated to an integer: the Euclidean distance
with square `v`, truncated. -/
def floorSqrt (v : Int) : Int := (Nat.sqrt v.toNat : Int)

/-- The `int` division `n/2` of the source (rounds toward zero). -/
def half (n : Int) : Int := Int.tdiv n 2

/-- The `check` lambda of `case Button::DPAD_RIGHT`. -/
def checkRight (cur pot : Element) : Bool := decide (pot.x ≥ cur.x + cur.w)

/-- The `dist` lambda of `case Button::DPAD_RIGHT`, as an `int`. -/
def distRight (cur pot : Element) : Int :=
  sqrtPow (pot.x - (cur.x + cur.w)) ((pot.y + half pot.h) - (cur.y + half cur.h))

/-- The `check` lambda of `case Button::DPAD_LEFT`. -/
def checkLeft (cur pot : Element) : Bool := decide (pot.x + pot.w ≤ cur.x)

/-- The `dist` lambda of `case Button::DPAD_LEFT`, as an `int`. -/
def distLeft (cur pot : Element) : Int :=
  sqrtPow ((pot.x + pot.w) - cur.x) ((pot.y + half pot.h) - (cur.y + half cur.h))

/-- The `check` lambda of `case Button::DPAD_UP`. -/
def checkUp (cur pot : Element) : Bool := decide (pot.y + pot.h ≤ cur.y)

/-- The `dist` lambda of `case Button::DPAD_UP`, as an `int`. -/
def distUp (cur pot : Element) : Int :=
  sqrtPow ((pot.x + half pot.w) - (cur.x + half cur.w)) ((pot.y + pot.h) - cur.y)

/-- The `check` lambda of `case Button::DPAD_DOWN`. -/
def checkDown (cur pot : Element) : Bool := decide (pot.y ≥ cur.y + cur.h)

/-- The `dist` lambda of `case Button::DPAD_DOWN`, as an `int`. -/
def distDown (cur pot : Element) : Int :=
  sqrtPow ((pot.x + half pot.w) - (cur.x + half cur.w)) (pot.y - (cur.y + cur.h))

/-- One iteration of the `for` loop of `moveHighlight` on child `p`, with the
loop variables `(minDist, mv)`. -/
def moveStep (parent : Container) (cur : Ptr) (check : Element → Element → Bool)
    (dist : Element → Element → Int) (acc : Int × Option Ptr) (p : Ptr) : Int × Option Ptr :=
  if p = cur ∨ (parent.obj p).hidden = true
      ∨ ¬ ((parent.obj p).selectable = true ∨ (parent.obj p).hasSelectable = true) then
    acc
  else if check (parent.obj cur) (parent.obj p) then
    let tmpDist := dist (parent.obj cur) (parent.obj p)
    if tmpDist < acc.1 then (tmpDist, some p) else acc
  else
    acc

/-- Embedding of the free function `moveHighlight`: the return value and the
container afterwards.  `Container::handleEvent` calls it with a non-null
focus only; with a null focus the source passes the null pointer to `check`
(a null dereference as soon as a child passes the filter), and the embedding
reports no move. -/
def moveHighlight (parent : Container) (check : Element → Element → Bool)
    (dist : Element → Element → Int) : Bool × Container :=
  match parent.focused with
  | none => (false, parent)
  | some cur =>
    match (parent.children.foldl (moveStep parent cur check dist) (INT_MAX, none)).2 with
    | some mv => (true, parent.setFocused (some mv))
    | none => (false, parent)

/-- The `for` loop of the touch cases of `Container::handleEvent`: whether a
child returned true, and the children invoked. -/
def touchLoop (obj : Ptr → Element) (e : InputEvent) : List Ptr → Bool × List Ptr
  | [] => (false, [])
  | p :: rest =>
    if (obj p).handleEvent e then (true, [p])
    else
      let r := touchLoop obj e rest
      (r.1, p :: r.2)

/-- Embedding of `Container::handleEvent`. -/
def Container.handleEvent (c : Container) (e : InputEvent) : Handled :=
  if c.hidden then ⟨false, c, []⟩
  else
    match e.type with
    | .ButtonPressed =>
      match c.focused with
      | none => ⟨false, c, []⟩
      | some f =>
        if (c.obj f).handleEvent e then ⟨true, c, [f]⟩
        else
          match e.button with
          | .DPAD_RIGHT =>
            let r := moveHighlight c checkRight distRight
            ⟨r.1, r.2, [f]⟩
          | .DPAD_LEFT =>
            let r := moveHighlight c checkLeft distLeft
            ⟨r.1, r.2, [f]⟩
          | .DPAD_UP =>
            let r := moveHighlight c checkUp distUp
            ⟨r.1, r.2, [f]⟩
          | .DPAD_DOWN =>
            let r := moveHighlight c checkDown distDown
            ⟨r.1, r.2, [f]⟩
          | .other _ => ⟨false, c, [f]⟩
    | .ButtonReleased =>
      match c.focused with
      | none => ⟨false, c, []⟩
      | some f =>
        if (c.obj f).handleEvent e then ⟨true, c, [f]⟩ else ⟨false, c, [f]⟩
    | .TouchPressed | .TouchMoved | .TouchReleased =>
      let r := touchLoop c.obj e c.children
      ⟨r.1, c, r.2⟩

/-- The `check` lambda `Container::handleEvent` passes for a d-pad button. -/
def checkOf : Button → Element → Element → Bool
  | .DPAD_RIGHT => checkRight
  | .DPAD_LEFT => checkLeft
  | .DPAD_UP => checkUp
  | .DPAD_DOWN => checkDown
  | .other _ => fun _ _ => false

/-- The `dist` lambda `Container::handleEvent` passes for a d-pad button. -/
def distOf : Button → Element → Element → Int
  | .DPAD_RIGHT => distRight
  | .DPAD_LEFT => distLeft
  | .DPAD_UP => distUp
  | .DPAD_DOWN => distDown
  | .other _ => fun _ _ => 0

/-- The four buttons with a `case` in the inner `switch`. -/
def Button.isDpad : Button → Bool
  | .other _ => false
  | _ => true

/-- The filter of `moveHighlight` together with `check`: the loop body
reaches the distance comparison for child `q`. -/
def Passes (c : Container) (check : Element → Element → Bool) (cur q : Ptr) : Prop :=
  q ≠ cur ∧ (c.obj q).hidden = false
    ∧ ((c.obj q).selectable = true ∨ (c.obj q).hasSelectable = true)
    ∧ check (c.obj cur) (c.obj q) = true

/-- Child `q` of the container is a candidate for leaving `cur`: a child other
than `cur`, not hidden, selectable or containing a selectable, and in the
direction `check` tests. -/
def Qualifies (c : Container) (check : Element → Element → Bool) (cur q : Ptr) : Prop :=
  q ∈ c.children ∧ Passes c check cur q

instance (c : Container) (check : Element → Element → Bool) (cur q : Ptr) :
    Decidable (Passes c check cur q) := by
  unfold Passes; infer_instance

instance (c : Container) (check : Element → Element → Bool) (cur q : Ptr) :
    Decidable (Qualifies c check cur q) := by
  unfold Qualifies; infer_instance

/-- The operations of Container.cpp that act on a container's state. -/
inductive Op where
  | addElement (e : Ptr)
  | addElementAt (e : Ptr) (i : Nat)
  | handleEvent (ev : InputEvent)
  | moveHighlight (check : Element → Element → Bool) (dist : Element → Element → Int)
  | removeAllElements

/-- The container after one operation. -/
def Op.perform (c : Container) : Op → Container
  | .addElement e => c.addElement e
  | .addElementAt e i => c.addElementAt e i
  | .handleEvent ev => (c.handleEvent ev).state
  | .moveHighlight check dist => (Aether.moveHighlight c check dist).2
  | .removeAllElements => c.removeAllElements

/-- The container after a sequence of operations, first to last. -/
def run (c : Container) (ops : List Op) : Container :=
  ops.foldl Op.perform c

/-- The focused child, if set, is selectable or has a selectable descendant. -/
def FocusSelectable (c : Container) : Prop :=
  ∀ p, c.focused = some p → (c.obj p).selectable = true ∨ (c.obj p).hasSelectable = true

/-- The focused pointer is null or an element of the children sequence. -/
def FocusIsChild (c : Container) : Prop :=
  ∀ p, c.focused = some p → p ∈ c.children

instance (c : Container) : Decidable (FocusSelectable c) :=
  match h : c.focused with
  | none => isTrue (fun p hp => by rw [h] at hp; exact Option.noConfusion hp)
  | some f =>
    if hs : (c.obj f).selectable = true ∨ (c.obj f).hasSelectable = true then
      isTrue (fun p hp => by rw [h] at hp; cases hp; exact hs)
    else isFalse (fun hall => hs (hall f h))

instance (c : Container) : Decidable (FocusIsChild c) :=
  match h : c.focused with
  | none => isTrue (fun p hp => by rw [h] at hp; exact Option.noConfusion hp)
  | some f =>
    if hs : f ∈ c.children then
      isTrue (fun p hp => by rw [h] at hp; cases hp; exact hs)
    else isFalse (fun hall => hs (hall f h))

end Aether

/-! ## `requests::request`

The function is a fixed sequence of calls into libcurl and the C library; the
embedding is the sequence of calls it makes, given whether `curl_easy_init`
and `fopen` succeed. -/

namespace requests

/-- The libcurl options `requests::request` sets, and the two that install a
write callback and its sink. -/
inductive CurlOption where
  | CUSTOMREQUEST
  | URL
  | FOLLOWLOCATION
  | DEFAULT_PROTOCOL
  | POSTFIELDS
  | WRITEFUNCTION
  | WRITEDATA
  deriving DecidableEq, Repr

/-- Argument of `curl_easy_setopt`: a C string, a `long`, a callback (by
name) or an open stream (by path). -/
inductive OptValue where
  | str (s : String)
  | long (n : Int)
  | callback (name : String)
  | stream (path : String)
  deriving DecidableEq, Repr

/-- A call made by `requests::request`.  `curl_easy_init` and `fopen` carry
whether they returned non-null; `curl_easy_cleanup` carries whether its
argument is the handle `curl_easy_init` returned (true) or null (false). -/
inductive Call where
  | curl_easy_init (ok : Bool)
  | fopen (path mode : String) (ok : Bool)
  | curl_easy_setopt (opt : CurlOption) (value : OptValue)
  | curl_easy_perform
  | curl_easy_cleanup (handle : Bool)
  deriving DecidableEq, Repr

/-- Whether `curl_easy_init` and `fopen` succeed. -/
structure Outcome where
  initOk : Bool
  fopenOk : Bool
  deriving DecidableEq, Repr

/-- The string literal `data` of `requests::request`. -/
def data : String :=
  "\x7b\"asm\": \"NOP\", \"offset\": \"\", \"arch\": [\"arm64\", \"arm\", \"thumb\"]\x7d"

/-- Embedding of `requests::request`: the calls it makes, in order. -/
def request (env : Outcome) : List Call :=
  [Call.curl_easy_init env.initOk]
  ++ (if env.initOk then
        [Call.fopen "response.json" "wb" env.fopenOk]
        ++ (if env.fopenOk then
              [ Call.curl_easy_setopt .CUSTOMREQUEST (.str "POST"),
                Call.curl_easy_setopt .URL (.str "https://armconverter.com/api/convert"),
                Call.curl_easy_setopt .FOLLOWLOCATION (.long 1),
                Call.curl_easy_setopt .DEFAULT_PROTOCOL (.str "https"),
                Call.curl_easy_setopt .POSTFIELDS (.str data),
                Call.curl_easy_perform ]
            else [])
      else [])
  ++ [Call.curl_easy_cleanup env.initOk]

/-- The write callback installed on the handle by a sequence of calls, if
any (`none`: libcurl's default, `fwrite`). -/
def writeCallback (calls : List Call) : Option String :=
  calls.foldl (fun acc c =>
    match c with
    | .curl_easy_setopt .WRITEFUNCTION (.callback name) => some name
    | _ => acc) none

/-- The stream installed as the sink of the write callback by a sequence of
calls, if any (`none`: libcurl's default, standard output). -/
def writeSink (calls : List Call) : Option String :=
  calls.foldl (fun acc c =>
    match c with
    | .curl_easy_setopt .WRITEDATA (.stream path) => some path
    | _ => acc) none

/-- One step of the content of the file response.json (`none`: not touched),
for a transfer whose response body is `body`: a successful `fopen` in mode
"wb" truncates it, and `curl_easy_perform` appends the body when the sink
installed so far is that stream. -/
def fileStep (body : List Nat) (st : List Call × Option (List Nat)) (c : Call) :
    List Call × Option (List Nat) :=
  let file :=
    match c with
    | .fopen "response.json" "wb" true => some []
    | .curl_easy_perform =>
      if writeSink st.1 = some "response.json" then some (st.2.getD [] ++ body) else st.2
    | _ => st.2
  (st.1 ++ [c], file)

/-- Content of response.json after a sequence of calls, the response body
being `body`. -/
def responseJson (calls : List Call) (body : List Nat) : Option (List Nat) :=
  (calls.foldl (fileStep body) ([], none)).2

end requests

namespace Aether

/-! ## Concrete containers -/

/-- A visible, selectable element with the given box whose `handleEvent`
consumes nothing. -/
def box (x y w h : Int) : Element :=
  { x := x, y := y, w := w, h := h, hidden := false, selectable := true,
    hasSelectable := false, active := false, handleEvent := fun _ => false }

/-- Three boxes of size 10 by 10: object 0 at the origin, objects 1 and 2 both
3 to the right of its right edge, object 1 one lower than object 2. -/
def tieObjects : Ptr → Element
  | 1 => box 13 1 10 10
  | 2 => box 13 0 10 10
  | _ => box 0 0 10 10

/-- A visible container of the three boxes, focused on object 0. -/
def tieContainer : Container :=
  { obj := tieObjects, hidden := false, children := [0, 1, 2], focused := some 0 }

/-- The event "d-pad right pressed". -/
def pressRight : InputEvent := { type := .ButtonPressed, button := .DPAD_RIGHT }

/-- The event "d-pad left pressed". -/
def pressLeft : InputEvent := { type := .ButtonPressed, button := .DPAD_LEFT }

/-- A visible element at the origin whose `handleEvent` consumes every
event. -/
def consumer : Element :=
  { x := 0, y := 0, w := 10, h := 10, hidden := false, selectable := true,
    hasSelectable := false, active := false, handleEvent := fun _ => true }

/-- Object 0 consumes every event, every other object consumes none. -/
def touchObjects : Ptr → Element
  | 0 => consumer
  | _ => box 20 0 10 10

/-- A visible container with the two children 0 and 1. -/
def touchContainer : Container :=
  { obj := touchObjects, hidden := false, children := [0, 1], focused := some 0 }

/-- The event "touch pressed". -/
def touchPressed : InputEvent := { type := .TouchPressed, button := .other 0 }

/-- The container `tieContainer`, hidden. -/
def hiddenContainer : Container := { tieContainer with hidden := true }

/-- A visible element with the given box that is neither selectable nor
contains a selectable (a text label). -/
def label (x y w h : Int) : Element :=
  { x := x, y := y, w := w, h := h, hidden := false, selectable := false,
    hasSelectable := false, active := false, handleEvent := fun _ => false }

/-- Object 0 is a label, every other object a selectable box. -/
def labelObjects : Ptr → Element
  | 0 => label 0 0 10 10
  | _ => box 20 0 10 10

/-! ## The search loop of `moveHighlight` -/

theorem moveStep_of_passes (parent : Container) (cur : Ptr) (check : Element → Element → Bool)
    (dist : Element → Element → Int) (acc : Int × Option Ptr) (p : Ptr)
    (hp : Passes parent check cur p) :
    moveStep parent cur check dist acc p =
      if dist (parent.obj cur) (parent.obj p) < acc.1 then
        (dist (parent.obj cur) (parent.obj p), some p) else acc := by
  obtain ⟨h1, h2, h3, h4⟩ := hp
  have hf : ¬ (p = cur ∨ (parent.obj p).hidden = true
      ∨ ¬ ((parent.obj p).selectable = true ∨ (parent.obj p).hasSelectable = true)) := by
    rintro (h | h | h)
    · exact h1 h
    · rw [h2] at h; exact Bool.noConfusion h
    · exact h h3
  unfold moveStep
  rw [if_neg hf, if_pos h4]

theorem moveStep_of_not_passes (parent : Container) (cur : Ptr)
    (check : Element → Element → Bool) (dist : Element → Element → Int)
    (acc : Int × Option Ptr) (p : Ptr) (hp : ¬ Passes parent check cur p) :
    moveStep parent cur check dist acc p = acc := by
  unfold moveStep
  split
  · rfl
  · rename_i hf
    split
    · rename_i hc
      exfalso
      apply hp
      refine ⟨fun h => hf (Or.inl h), ?_, ?_, hc⟩
      · cases hh : (parent.obj p).hidden
        · rfl
        · exact absurd (Or.inr (Or.inl hh)) hf
      · by_contra hs
        exact hf (Or.inr (Or.inr hs))
    · rfl

/-- The loop invariant of `moveHighlight`: after the loop has run over `l`
from the loop variables `acc`, the minimum is no larger than before and than
the distance of any passing child of `l`; and either nothing was replaced, or
the kept child is a passing child of `l` whose distance is the minimum and is
below the starting one. -/
theorem foldl_moveStep (parent : Container) (cur : Ptr) (check : Element → Element → Bool)
    (dist : Element → Element → Int) (l : List Ptr) (acc : Int × Option Ptr) :
    (l.foldl (moveStep parent cur check dist) acc).1 ≤ acc.1
    ∧ (∀ q ∈ l, Passes parent check cur q →
        (l.foldl (moveStep parent cur check dist) acc).1 ≤ dist (parent.obj cur) (parent.obj q))
    ∧ (l.foldl (moveStep parent cur check dist) acc = acc
        ∨ ∃ q ∈ l, Passes parent check cur q
            ∧ l.foldl (moveStep parent cur check dist) acc
                = (dist (parent.obj cur) (parent.obj q), some q)
            ∧ dist (parent.obj cur) (parent.obj q) < acc.1) := by
  induction l generalizing acc with
  | nil => simp
  | cons p rest ih =>
    simp only [List.foldl_cons]
    obtain ⟨ih1, ih2, ih3⟩ := ih (moveStep parent cur check dist acc p)
    by_cases hp : Passes parent check cur p
    · rw [moveStep_of_passes parent cur check dist acc p hp] at ih1 ih2 ih3 ⊢
      by_cases hlt : dist (parent.obj cur) (parent.obj p) < acc.1
      · rw [if_pos hlt] at ih1 ih2 ih3 ⊢
        simp only at ih1 ih3
        refine ⟨le_trans ih1 (le_of_lt hlt), ?_, ?_⟩
        · intro q hq hqp
          rcases List.mem_cons.1 hq with rfl | hq
          · exact ih1
          · exact ih2 q hq hqp
        · right
          rcases ih3 with h | ⟨q, hq, hqp, hres, hlt2⟩
          · exact ⟨p, List.mem_cons_self _ _, hp, h, hlt⟩
          · exact ⟨q, List.mem_cons_of_mem _ hq, hqp, hres, lt_trans hlt2 hlt⟩
      · rw [if_neg hlt] at ih1 ih2 ih3 ⊢
        refine ⟨ih1, ?_, ?_⟩
        · intro q hq hqp
          rcases List.mem_cons.1 hq with rfl | hq
          · exact le_trans ih1 (not_lt.1 hlt)
          · exact ih2 q hq hqp
        · rcases ih3 with h | ⟨q, hq, hqp, hres, hlt2⟩
          · exact Or.inl h
          · exact Or.inr ⟨q, List.mem_cons_of_mem _ hq, hqp, hres, hlt2⟩
    · rw [moveStep_of_not_passes parent cur check dist acc p hp] at ih1 ih2 ih3 ⊢
      refine ⟨ih1, ?_, ?_⟩
      · intro q hq hqp
        rcases List.mem_cons.1 hq with rfl | hq
        · exact absurd hqp hp
        · exact ih2 q hq hqp
      · rcases ih3 with h | ⟨q, hq, hqp, hres, hlt2⟩
        · exact Or.inl h
        · exact Or.inr ⟨q, List.mem_cons_of_mem _ hq, hqp, hres, hlt2⟩

/-- When `moveHighlight` returns true: the focus was set before, the container
afterwards differs in the focus only, and the new focus is a qualifying child
whose `int` distance is below `INT_MAX` and no larger than that of any
qualifying child. -/
theorem moveHighlight_true (parent : Container) (check : Element → Element → Bool)
    (dist : Element → Element → Int) (c2 : Container)
    (h : moveHighlight parent check dist = (true, c2)) :
    ∃ cur mv, parent.focused = some cur ∧ c2 = parent.setFocused (some mv)
      ∧ Qualifies parent check cur mv
      ∧ dist (parent.obj cur) (parent.obj mv) < INT_MAX
      ∧ ∀ q, Qualifies parent check cur q →
          dist (parent.obj cur) (parent.obj mv) ≤ dist (parent.obj cur) (parent.obj q) := by
  unfold moveHighlight at h
  cases hf : parent.focused with
  | none => rw [hf] at h; simp at h
  | some cur =>
    rw [hf] at h
    simp only at h
    obtain ⟨-, h2, h3⟩ := foldl_moveStep parent cur check dist parent.children (INT_MAX, none)
    cases hm : (parent.children.foldl (moveStep parent cur check dist) (INT_MAX, none)).2 with
    | none => rw [hm] at h; simp at h
    | some mv =>
      rw [hm] at h
      simp only [Prod.mk.injEq, true_and] at h
      rcases h3 with h3 | ⟨q, hq, hqp, hres, hlt⟩
      · rw [h3] at hm; simp at hm
      · rw [hres] at hm h2
        simp only [Option.some.injEq] at hm
        subst hm
        exact ⟨cur, q, rfl, h.symm, ⟨hq, hqp⟩, hlt, fun q2 hq2 => h2 q2 hq2.1 hq2.2⟩

/-- When `moveHighlight` returns false the container is unchanged. -/
theorem moveHighlight_false (parent : Container) (check : Element → Element → Bool)
    (dist : Element → Element → Int) (c2 : Container)
    (h : moveHighlight parent check dist = (false, c2)) : c2 = parent := by
  unfold moveHighlight at h
  split at h
  · simp at h; exact h.symm
  · split at h
    · simp at h
    · simp at h; exact h.symm

/-- Without a qualifying child `moveHighlight` returns false and leaves the
container as it was. -/
theorem moveHighlight_none (parent : Container) (check : Element → Element → Bool)
    (dist : Element → Element → Int)
    (hno : ∀ cur q, parent.focused = some cur → ¬ Qualifies parent check cur q) :
    moveHighlight parent check dist = (false, parent) := by
  cases hr : moveHighlight parent check dist with
  | mk b c2 =>
    cases b with
    | false => rw [moveHighlight_false parent check dist c2 hr]
    | true =>
      obtain ⟨cur, mv, hf, -, hq, -⟩ := moveHighlight_true parent check dist c2 hr
      exact absurd hq (hno cur mv hf)

/-- The container after `moveHighlight`: unchanged with return value false, or
refocused on a qualifying child with return value true. -/
theorem moveHighlight_cases (parent : Container) (check : Element → Element → Bool)
    (dist : Element → Element → Int) :
    moveHighlight parent check dist = (false, parent)
    ∨ ∃ cur mv, parent.focused = some cur ∧ Qualifies parent check cur mv
        ∧ moveHighlight parent check dist = (true, parent.setFocused (some mv)) := by
  cases hr : moveHighlight parent check dist with
  | mk b c2 =>
    cases b with
    | false => left; rw [moveHighlight_false parent check dist c2 hr]
    | true =>
      obtain ⟨cur, mv, hf, hc, hq, -⟩ := moveHighlight_true parent check dist c2 hr
      right
      exact ⟨cur, mv, hf, hq, by rw [hc]⟩

/-! ## `Container::handleEvent` -/

theorem handleEvent_hidden (c : Container) (e : InputEvent) (h : c.hidden = true) :
    c.handleEvent e = ⟨false, c, []⟩ := by
  unfold Container.handleEvent
  rw [if_pos h]

/-- A d-pad press the focused child does not consume is answered by
`moveHighlight` with the lambdas of that button. -/
theorem handleEvent_dpad (c : Container) (e : InputEvent) (f : Ptr) (hv : c.hidden = false)
    (ht : e.type = EventType.ButtonPressed) (hb : e.button.isDpad = true)
    (hf : c.focused = some f) (hn : (c.obj f).handleEvent e = false) :
    c.handleEvent e =
      ⟨(moveHighlight c (checkOf e.button) (distOf e.button)).1,
       (moveHighlight c (checkOf e.button) (distOf e.button)).2, [f]⟩ := by
  unfold Container.handleEvent
  rw [hv, ht, hf]
  simp only [hn]
  cases hbt : e.button with
  | other k => rw [hbt] at hb; simp [Button.isDpad] at hb
  | DPAD_RIGHT => simp [checkOf, distOf]
  | DPAD_LEFT => simp [checkOf, distOf]
  | DPAD_UP => simp [checkOf, distOf]
  | DPAD_DOWN => simp [checkOf, distOf]

/-- Outside the d-pad case `Container::handleEvent` leaves the container as
it was. -/
theorem handleEvent_state (c : Container) (e : InputEvent) :
    (c.handleEvent e).state = c
    ∨ (c.hidden = false ∧ e.type = EventType.ButtonPressed ∧ e.button.isDpad = true
        ∧ ∃ f, c.focused = some f ∧ (c.obj f).handleEvent e = false
            ∧ (c.handleEvent e).state
                = (moveHighlight c (checkOf e.button) (distOf e.button)).2) := by
  cases hv : c.hidden with
  | true => left; rw [handleEvent_hidden c e hv]
  | false =>
    cases hf : c.focused with
    | none =>
      left
      unfold Container.handleEvent
      rw [hv, hf]
      cases e.type <;> simp
    | some f =>
      cases ht : e.type with
      | ButtonPressed =>
        cases hn : (c.obj f).handleEvent e with
        | true =>
          left
          unfold Container.handleEvent
          rw [hv, ht, hf]
          simp [hn]
        | false =>
          cases hb : e.button.isDpad with
          | true =>
            right
            refine ⟨rfl, rfl, rfl, f, rfl, hn, ?_⟩
            rw [handleEvent_dpad c e f hv ht hb hf hn]
          | false =>
            left
            unfold Container.handleEvent
            rw [hv, ht, hf]
            cases hbt : e.button with
            | other k => simp [hn]
            | DPAD_RIGHT => rw [hbt] at hb; simp [Button.isDpad] at hb
            | DPAD_LEFT => rw [hbt] at hb; simp [Button.isDpad] at hb
            | DPAD_UP => rw [hbt] at hb; simp [Button.isDpad] at hb
            | DPAD_DOWN => rw [hbt] at hb; simp [Button.isDpad] at hb
      | ButtonReleased =>
        left
        unfold Container.handleEvent
        rw [hv, ht, hf]
        by_cases hn : (c.obj f).handleEvent e = true <;> simp [hn]
      | TouchPressed => left; unfold Container.handleEvent; rw [hv, ht]; simp
      | TouchMoved => left; unfold Container.handleEvent; rw [hv, ht]; simp
      | TouchReleased => left; unfold Container.handleEvent; rw [hv, ht]; simp

/-! ## The distance computation -/

theorem floorSqrt_eq (v : Int) (q : Nat) (h1 : (q : Int) * q ≤ v)
    (h2 : v < ((q : Int) + 1) * (q + 1)) : floorSqrt v = q := by
  unfold floorSqrt
  have hv : 0 ≤ v := le_trans (by positivity) h1
  obtain ⟨n, rfl⟩ := Int.eq_ofNat_of_zero_le hv
  simp only [Int.toNat_ofNat, Nat.cast_inj]
  symm
  rw [Nat.eq_sqrt]
  constructor
  · exact_mod_cast h1
  · exact_mod_cast h2

theorem roundDouble_small (n : Nat) (h : n < 2 ^ 53) : roundDouble n = n := by
  unfold roundDouble
  rw [if_pos h]

/-- Below `2 ^ 52` the `double` square root never rounds up to the next
integer: the converted value is the integer square root. -/
theorem sqrtDouble_eq_sqrt (m : Nat) (h : m < 2 ^ 52) : sqrtDouble m = Nat.sqrt m := by
  unfold sqrtDouble
  simp only
  split
  · rfl
  · have hk : Nat.sqrt m * Nat.sqrt m ≤ m := Nat.sqrt_le m
    have hk2 : m < (Nat.sqrt m + 1) * (Nat.sqrt m + 1) := Nat.lt_succ_sqrt m
    generalize Nat.sqrt m = k at *
    have hk26 : k < 2 ^ 26 := by
      by_contra hc
      have h26 : 2 ^ 26 ≤ k := not_lt.1 hc
      have : 2 ^ 26 * 2 ^ 26 ≤ k * k := Nat.mul_le_mul h26 h26
      omega
    have hk0 : k ≠ 0 := by
      rintro rfl
      omega
    have hlog : Nat.log2 k < 26 := (Nat.log2_lt hk0).2 hk26
    have hself : k < 2 ^ (Nat.log2 k + 1) := Nat.lt_log2_self
    rw [if_neg]
    rw [not_lt]
    generalize hT : 2 ^ (53 - Nat.log2 k) = t
    have ht : 2 * (k + 1) ≤ t := by
      have h1 : 2 ^ (Nat.log2 k + 2) ≤ 2 ^ (53 - Nat.log2 k) :=
        Nat.pow_le_pow_right (by norm_num) (by omega)
      have h2 : 2 ^ (Nat.log2 k + 2) = 2 * 2 ^ (Nat.log2 k + 1) := by
        rw [Nat.pow_succ]; ring
      rw [hT] at h1
      omega
    have hpos : 1 ≤ (k + 1) * t := by
      have : 1 ≤ t := by omega
      nlinarith
    obtain ⟨p, hp⟩ : ∃ p, (k + 1) * t = p + 1 := ⟨(k + 1) * t - 1, by omega⟩
    rw [hp, Nat.add_sub_cancel]
    have h1 : (m + 1) * t ^ 2 ≤ (p + 1) ^ 2 := by
      rw [← hp]
      have hm : m + 1 ≤ (k + 1) * (k + 1) := hk2
      calc (m + 1) * t ^ 2 ≤ ((k + 1) * (k + 1)) * t ^ 2 := Nat.mul_le_mul_right _ hm
        _ = ((k + 1) * t) ^ 2 := by ring
    have h2 : 2 * (p + 1) ≤ t ^ 2 := by
      rw [← hp]
      calc 2 * ((k + 1) * t) = (2 * (k + 1)) * t := by ring
        _ ≤ t * t := Nat.mul_le_mul_right _ ht
        _ = t ^ 2 := by ring
    nlinarith

/-- While the sum of squares is below `2 ^ 52`, the distance the code computes
is the Euclidean distance truncated to an integer. -/
theorem sqrtPow_eq_floorSqrt (a b : Int) (h : a ^ 2 + b ^ 2 < 2 ^ 52) :
    sqrtPow a b = floorSqrt (a ^ 2 + b ^ 2) := by
  have hsum : ((a.natAbs ^ 2 + b.natAbs ^ 2 : Nat) : Int) = a ^ 2 + b ^ 2 := by
    push_cast
    simp [sq_abs]
  have hlt : a.natAbs ^ 2 + b.natAbs ^ 2 < 2 ^ 52 := by
    have : ((a.natAbs ^ 2 + b.natAbs ^ 2 : Nat) : Int) < 2 ^ 52 := by rw [hsum]; exact h
    exact_mod_cast this
  unfold sqrtPow floorSqrt
  rw [roundDouble_small (a.natAbs ^ 2) (by omega), roundDouble_small (b.natAbs ^ 2) (by omega),
    roundDouble_small _ (by omega), sqrtDouble_eq_sqrt _ hlt, ← hsum, Int.toNat_ofNat]

theorem sqrtPow_neg_neg (a b : Int) : sqrtPow (-a) (-b) = sqrtPow a b := by
  unfold sqrtPow
  rw [Int.natAbs_neg, Int.natAbs_neg]

theorem sqrtPow_three_zero : sqrtPow 3 0 = 3 := by
  rw [sqrtPow_eq_floorSqrt 3 0 (by norm_num)]
  exact floorSqrt_eq _ 3 (by norm_num) (by norm_num)

theorem sqrtPow_three_one : sqrtPow 3 1 = 3 := by
  rw [sqrtPow_eq_floorSqrt 3 1 (by norm_num)]
  exact floorSqrt_eq _ 3 (by norm_num) (by norm_num)

theorem half_ten : half 10 = 5 := by decide

theorem tieContainer_right :
    moveHighlight tieContainer checkRight distRight
      = (true, tieContainer.setFocused (some 1)) := by
  simp [tieContainer, moveHighlight, moveStep, tieObjects, box, checkRight, distRight,
    half_ten, sqrtPow_three_zero, sqrtPow_three_one, INT_MAX, Container.setFocused]

/-! ## Claims on directional focus movement -/

/-- C2: for any container (hidden or not) and any d-pad press that the
focused child, if there is one, does not consume, if no child other than the
focused one is at once not hidden, selectable or containing a selectable, and
in the direction of the button, then `Container::handleEvent` leaves the
focus (indeed the whole container) as it was and returns false. -/
theorem no_candidate_unhandled (c : Container) (e : InputEvent)
    (ht : e.type = EventType.ButtonPressed)
    (hb : e.button = Button.DPAD_UP ∨ e.button = Button.DPAD_DOWN
      ∨ e.button = Button.DPAD_LEFT ∨ e.button = Button.DPAD_RIGHT)
    (hn : ∀ cur, c.focused = some cur → (c.obj cur).handleEvent e = false)
    (hno : ∀ cur, c.focused = some cur → ∀ q ∈ c.children, q ≠ cur →
      ¬ ((c.obj q).hidden = false
          ∧ ((c.obj q).selectable = true ∨ (c.obj q).hasSelectable = true)
          ∧ checkOf e.button (c.obj cur) (c.obj q) = true)) :
    (c.handleEvent e).state.focused = c.focused
    ∧ (c.handleEvent e).state = c
    ∧ (c.handleEvent e).ret = false := by
  have hd : e.button.isDpad = true := by
    rcases hb with h | h | h | h <;> rw [h] <;> rfl
  cases hv : c.hidden with
  | true => rw [handleEvent_hidden c e hv]; exact ⟨rfl, rfl, rfl⟩
  | false =>
    cases hf : c.focused with
    | none =>
      have hr : c.handleEvent e = ⟨false, c, []⟩ := by
        unfold Container.handleEvent
        rw [hv, ht, hf]
        simp
      rw [hr]
      exact ⟨hf, rfl, rfl⟩
    | some cur =>
      have hnone : moveHighlight c (checkOf e.button) (distOf e.button) = (false, c) := by
        apply moveHighlight_none
        intro cur2 q hf2 hq
        exact hno cur2 hf2 q hq.1 hq.2.1 ⟨hq.2.2.1, hq.2.2.2.1, hq.2.2.2.2⟩
      rw [handleEvent_dpad c e cur hv ht hd hf (hn cur hf), hnone]
      exact ⟨hf, rfl, rfl⟩

/-- C2 witness: `no_candidate_unhandled` at `tieContainer` and a d-pad-left
press (nothing lies to the left of object 0). -/
theorem no_candidate_unhandled_witness :
    (tieContainer.handleEvent pressLeft).state.focused = tieContainer.focused
    ∧ (tieContainer.handleEvent pressLeft).state = tieContainer
    ∧ (tieContainer.handleEvent pressLeft).ret = false :=
  no_candidate_unhandled tieContainer pressLeft rfl (Or.inr (Or.inr (Or.inl rfl)))
    (fun cur hc => by cases hc; rfl)
    (fun cur hc => by cases hc; decide)

/-- C3: whenever `moveHighlight` returns true, the focus was set before, and
the newly focused element is a direct child of the container, differs from
the previously focused child, is not hidden, is selectable or has a
selectable descendant, and satisfies `check` relative to the previously
focused child; for the four lambdas of `Container::handleEvent` this is
right `pot.x >= cur.x+cur.w`, left `pot.x+pot.w <= cur.x`, up
`pot.y+pot.h <= cur.y`, down `pot.y >= cur.y+cur.h`. -/
theorem moveHighlight_new_focus (parent : Container) (check : Element → Element → Bool)
    (dist : Element → Element → Int) (after : Container)
    (h : moveHighlight parent check dist = (true, after)) :
    ∃ cur pot, parent.focused = some cur ∧ after.focused = some pot
      ∧ pot ∈ after.children ∧ after.children = parent.children
      ∧ pot ≠ cur
      ∧ (after.obj pot).hidden = false
      ∧ ((after.obj pot).selectable = true ∨ (after.obj pot).hasSelectable = true)
      ∧ check (parent.obj cur) (parent.obj pot) = true
      ∧ (check = checkRight → (parent.obj pot).x ≥ (parent.obj cur).x + (parent.obj cur).w)
      ∧ (check = checkLeft → (parent.obj pot).x + (parent.obj pot).w ≤ (parent.obj cur).x)
      ∧ (check = checkUp → (parent.obj pot).y + (parent.obj pot).h ≤ (parent.obj cur).y)
      ∧ (check = checkDown → (parent.obj pot).y ≥ (parent.obj cur).y + (parent.obj cur).h) := by
  obtain ⟨cur, mv, hf, hc, ⟨hmem, hne, hhid, hsel, hchk⟩, -, -⟩ :=
    moveHighlight_true parent check dist after h
  subst hc
  refine ⟨cur, mv, hf, rfl, hmem, rfl, hne, hhid, hsel, hchk, ?_, ?_, ?_, ?_⟩
  · intro hck
    rw [hck] at hchk
    exact of_decide_eq_true hchk
  · intro hck
    rw [hck] at hchk
    exact of_decide_eq_true hchk
  · intro hck
    rw [hck] at hchk
    exact of_decide_eq_true hchk
  · intro hck
    rw [hck] at hchk
    exact of_decide_eq_true hchk

/-- C3 witness: `moveHighlight_new_focus` at `tieContainer` moving right. -/
theorem moveHighlight_new_focus_witness :
    ∃ cur pot, tieContainer.focused = some cur
      ∧ (tieContainer.setFocused (some 1)).focused = some pot
      ∧ pot ∈ (tieContainer.setFocused (some 1)).children
      ∧ (tieContainer.setFocused (some 1)).children = tieContainer.children
      ∧ pot ≠ cur
      ∧ ((tieContainer.setFocused (some 1)).obj pot).hidden = false
      ∧ (((tieContainer.setFocused (some 1)).obj pot).selectable = true
          ∨ ((tieContainer.setFocused (some 1)).obj pot).hasSelectable = true)
      ∧ checkRight (tieContainer.obj cur) (tieContainer.obj pot) = true
      ∧ (checkRight = checkRight →
          (tieContainer.obj pot).x ≥ (tieContainer.obj cur).x + (tieContainer.obj cur).w)
      ∧ (checkRight = checkLeft →
          (tieContainer.obj pot).x + (tieContainer.obj pot).w ≤ (tieContainer.obj cur).x)
      ∧ (checkRight = checkUp →
          (tieContainer.obj pot).y + (tieContainer.obj pot).h ≤ (tieContainer.obj cur).y)
      ∧ (checkRight = checkDown →
          (tieContainer.obj pot).y ≥ (tieContainer.obj cur).y + (tieContainer.obj cur).h) :=
  moveHighlight_new_focus tieContainer checkRight distRight (tieContainer.setFocused (some 1))
    tieContainer_right

/-! ## Effect of the operations on the container state -/

theorem addElementAt_children (c : Container) (e : Ptr) (i : Nat) :
    (c.addElementAt e i).children = c.children.take i ++ e :: c.children.drop i := by
  unfold Container.addElementAt
  simp only
  split <;> rfl

theorem addElementAt_focused (c : Container) (e : Ptr) (i : Nat) :
    (c.addElementAt e i).focused =
      if ((c.obj e).selectable = true ∨ (c.obj e).hasSelectable = true) ∧ c.focused = none then
        some e
      else c.focused := by
  unfold Container.addElementAt
  simp only [Element.addElementAt, Function.update_same, Element.setInactive]
  cases hf : c.focused <;> cases hs : (c.obj e).selectable <;>
    cases hh : (c.obj e).hasSelectable <;> simp [Container.setFocused, hf]

theorem addElementAt_selectable (c : Container) (e : Ptr) (i : Nat) (p : Ptr) :
    ((c.addElementAt e i).obj p).selectable = (c.obj p).selectable
    ∧ ((c.addElementAt e i).obj p).hasSelectable = (c.obj p).hasSelectable := by
  have hobj : (c.addElementAt e i).obj = Function.update c.obj e (c.obj e).setInactive := by
    unfold Container.addElementAt
    simp only
    split <;> rfl
  rw [hobj]
  by_cases hpe : p = e
  · subst hpe
    rw [Function.update_same]
    exact ⟨rfl, rfl⟩
  · rw [Function.update_noteq hpe]
    exact ⟨rfl, rfl⟩

theorem addElementAt_focusSelectable (c : Container) (e : Ptr) (i : Nat)
    (h : FocusSelectable c) : FocusSelectable (c.addElementAt e i) := by
  intro p hp
  rw [(addElementAt_selectable c e i p).1, (addElementAt_selectable c e i p).2]
  rw [addElementAt_focused] at hp
  split at hp
  · rename_i hc
    cases hp
    exact hc.1
  · exact h p hp

theorem addElementAt_focusIsChild (c : Container) (e : Ptr) (i : Nat)
    (h : FocusIsChild c) : FocusIsChild (c.addElementAt e i) := by
  intro p hp
  rw [addElementAt_children]
  rw [addElementAt_focused] at hp
  split at hp
  · cases hp
    simp
  · have hm : p ∈ c.children.take i ++ c.children.drop i := by
      rw [List.take_append_drop]
      exact h p hp
    rcases List.mem_append.1 hm with hm | hm
    · exact List.mem_append_left _ hm
    · exact List.mem_append_right _ (List.mem_cons_of_mem _ hm)

theorem moveHighlight_focusSelectable (c : Container) (check : Element → Element → Bool)
    (dist : Element → Element → Int) (h : FocusSelectable c) :
    FocusSelectable (moveHighlight c check dist).2 := by
  rcases moveHighlight_cases c check dist with hr | ⟨cur, mv, -, hq, hr⟩
  · rw [hr]; exact h
  · rw [hr]
    intro p hp
    cases hp
    exact hq.2.2.2.1

theorem moveHighlight_focusIsChild (c : Container) (check : Element → Element → Bool)
    (dist : Element → Element → Int) (h : FocusIsChild c) :
    FocusIsChild (moveHighlight c check dist).2 := by
  rcases moveHighlight_cases c check dist with hr | ⟨cur, mv, -, hq, hr⟩
  · rw [hr]; exact h
  · rw [hr]
    intro p hp
    cases hp
    exact hq.1

theorem perform_focusSelectable (c : Container) (op : Op) (h : FocusSelectable c) :
    FocusSelectable (op.perform c) := by
  cases op with
  | addElement e => exact addElementAt_focusSelectable c e _ h
  | addElementAt e i => exact addElementAt_focusSelectable c e i h
  | handleEvent ev =>
    show FocusSelectable (c.handleEvent ev).state
    rcases handleEvent_state c ev with hs | ⟨-, -, -, f, -, -, hs⟩
    · rw [hs]; exact h
    · rw [hs]; exact moveHighlight_focusSelectable c _ _ h
  | moveHighlight check dist => exact moveHighlight_focusSelectable c check dist h
  | removeAllElements =>
    intro _ hp
    exact Option.noConfusion hp

theorem perform_focusIsChild (c : Container) (op : Op) (h : FocusIsChild c) :
    FocusIsChild (op.perform c) := by
  cases op with
  | addElement e => exact addElementAt_focusIsChild c e _ h
  | addElementAt e i => exact addElementAt_focusIsChild c e i h
  | handleEvent ev =>
    show FocusIsChild (c.handleEvent ev).state
    rcases handleEvent_state c ev with hs | ⟨-, -, -, f, -, -, hs⟩
    · rw [hs]; exact h
    · rw [hs]; exact moveHighlight_focusIsChild c _ _ h
  | moveHighlight check dist => exact moveHighlight_focusIsChild c check dist h
  | removeAllElements =>
    intro _ hp
    exact Option.noConfusion hp

theorem run_focusSelectable (ops : List Op) (c : Container) (h : FocusSelectable c) :
    FocusSelectable (run c ops) := by
  induction ops generalizing c with
  | nil => exact h
  | cons op rest ih => exact ih (op.perform c) (perform_focusSelectable c op h)

theorem run_focusIsChild (ops : List Op) (c : Container) (h : FocusIsChild c) :
    FocusIsChild (run c ops) := by
  induction ops generalizing c with
  | nil => exact h
  | cons op rest ih => exact ih (op.perform c) (perform_focusIsChild c op h)

theorem moveHighlight_obj (c : Container) (check : Element → Element → Bool)
    (dist : Element → Element → Int) : (moveHighlight c check dist).2.obj = c.obj := by
  rcases moveHighlight_cases c check dist with hr | ⟨cur, mv, -, -, hr⟩ <;> rw [hr]
  rfl

theorem handleEvent_obj (c : Container) (ev : InputEvent) :
    (c.handleEvent ev).state.obj = c.obj := by
  rcases handleEvent_state c ev with hs | ⟨-, -, -, f, -, -, hs⟩
  · rw [hs]
  · rw [hs, moveHighlight_obj]

/-- The operations change no element's `selectable()` or `hasSelectable()`. -/
theorem perform_selectable (c : Container) (op : Op) (p : Ptr) :
    ((op.perform c).obj p).selectable = (c.obj p).selectable
    ∧ ((op.perform c).obj p).hasSelectable = (c.obj p).hasSelectable := by
  cases op with
  | addElement e => exact addElementAt_selectable c e _ p
  | addElementAt e i => exact addElementAt_selectable c e i p
  | handleEvent ev =>
    have ho : (Op.perform c (Op.handleEvent ev)).obj = c.obj := handleEvent_obj c ev
    rw [ho]
    exact ⟨rfl, rfl⟩
  | moveHighlight check dist =>
    have ho : (Op.perform c (Op.moveHighlight check dist)).obj = c.obj :=
      moveHighlight_obj c check dist
    rw [ho]
    exact ⟨rfl, rfl⟩
  | removeAllElements => exact ⟨rfl, rfl⟩

theorem run_selectable (ops : List Op) (c : Container) (p : Ptr) :
    ((run c ops).obj p).selectable = (c.obj p).selectable
    ∧ ((run c ops).obj p).hasSelectable = (c.obj p).hasSelectable := by
  induction ops generalizing c with
  | nil => exact ⟨rfl, rfl⟩
  | cons op rest ih =>
    have h1 := ih (op.perform c)
    have h2 := perform_selectable c op p
    exact ⟨h1.1.trans h2.1, h1.2.trans h2.2⟩

/-! ## Claims on the container invariants -/

/-- C4: starting from an empty container (any object store, hidden or not),
after every sequence of the operations of Container.cpp (addElement,
addElementAt, handleEvent, moveHighlight, removeAllElements) the focused
child, if set, is selectable or has a selectable descendant; the operations
themselves leave every element's selectability as it was in the initial
store. -/
theorem focus_selectable_invariant (obj : Ptr → Element) (hidden : Bool) (ops : List Op) :
    FocusSelectable (run (Container.new obj hidden) ops)
    ∧ ∀ p, (run (Container.new obj hidden) ops).focused = some p →
        (obj p).selectable = true ∨ (obj p).hasSelectable = true := by
  have hinv : FocusSelectable (run (Container.new obj hidden) ops) :=
    run_focusSelectable ops _ (fun _ hp => Option.noConfusion hp)
  refine ⟨hinv, fun p hp => ?_⟩
  have hs := run_selectable ops (Container.new obj hidden) p
  have := hinv p hp
  rw [hs.1, hs.2] at this
  exact this

/-- C5: starting from an empty container with null focus, after every
sequence of addElement, addElementAt, handleEvent, moveHighlight and
removeAllElements the focused pointer is null or an element of the children
sequence; and removeAllElements leaves the children empty and the focus
null. -/
theorem focus_is_child_invariant (obj : Ptr → Element) (hidden : Bool) (ops : List Op) :
    FocusIsChild (run (Container.new obj hidden) ops)
    ∧ (run (Container.new obj hidden) ops).removeAllElements.children = []
    ∧ (run (Container.new obj hidden) ops).removeAllElements.focused = none :=
  ⟨run_focusIsChild ops _ (fun _ hp => Option.noConfusion hp), rfl, rfl⟩

/-! ## Claims on event dispatch -/

/-- The touch loop invokes the children in order up to and including the
first that returns true, and returns whether one did. -/
theorem touchLoop_eq (obj : Ptr → Element) (e : InputEvent) (l : List Ptr) :
    touchLoop obj e l =
      (l.any (fun p => (obj p).handleEvent e),
       l.takeWhile (fun p => !(obj p).handleEvent e)
         ++ ((l.dropWhile (fun p => !(obj p).handleEvent e)).head?).toList) := by
  induction l with
  | nil => rfl
  | cons p rest ih =>
    unfold touchLoop
    cases hp : (obj p).handleEvent e with
    | true => simp [hp, List.takeWhile, List.dropWhile]
    | false => simp [hp, ih, List.takeWhile, List.dropWhile]

/-- C6 (as stated, refuted): in `touchContainer` the first child consumes the
touch event, `handleEvent` returns true at once and the second child's
`handleEvent` is not invoked. -/
theorem touch_broadcast_counterexample :
    touchContainer.hidden = false
    ∧ touchPressed.type = EventType.TouchPressed
    ∧ 1 ∈ touchContainer.children
    ∧ (touchContainer.handleEvent touchPressed).calls = [0]
    ∧ 1 ∉ (touchContainer.handleEvent touchPressed).calls := by
  decide

/-- C6 (amended): for a visible container and a touch event, `handleEvent`
offers the event to the children in child order and stops at the first child
that returns true: the children invoked are those before the first consuming
child and that child itself; the return value tells whether some child
consumed the event; when no child consumes it, every child is invoked; the
container is unchanged. -/
theorem touch_dispatch (c : Container) (e : InputEvent) (hv : c.hidden = false)
    (ht : e.type = EventType.TouchPressed ∨ e.type = EventType.TouchMoved
      ∨ e.type = EventType.TouchReleased) :
    (c.handleEvent e).calls =
        c.children.takeWhile (fun p => !(c.obj p).handleEvent e)
          ++ ((c.children.dropWhile (fun p => !(c.obj p).handleEvent e)).head?).toList
    ∧ (c.handleEvent e).ret = c.children.any (fun p => (c.obj p).handleEvent e)
    ∧ ((∀ p ∈ c.children, (c.obj p).handleEvent e = false) →
        (c.handleEvent e).calls = c.children ∧ (c.handleEvent e).ret = false)
    ∧ (c.handleEvent e).state = c := by
  have hcalls : c.handleEvent e =
      ⟨(touchLoop c.obj e c.children).1, c, (touchLoop c.obj e c.children).2⟩ := by
    unfold Container.handleEvent
    rw [hv]
    rcases ht with ht | ht | ht <;> rw [ht] <;> simp
  rw [hcalls, touchLoop_eq]
  refine ⟨rfl, rfl, ?_, rfl⟩
  intro hall
  have htw : c.children.takeWhile (fun p => !(c.obj p).handleEvent e) = c.children := by
    rw [List.takeWhile_eq_self_iff]
    intro p hp
    simp [hall p hp]
  have hdw : c.children.dropWhile (fun p => !(c.obj p).handleEvent e) = [] := by
    rw [List.dropWhile_eq_nil_iff]
    intro p hp
    simp [hall p hp]
  constructor
  · simp only [htw, hdw]
    simp
  · simp only [List.any_eq_false]
    intro p hp
    simp [hall p hp]

/-- C6 witness: `touch_dispatch` at `touchContainer` and a touch press. -/
theorem touch_dispatch_witness :
    (touchContainer.handleEvent touchPressed).calls =
        touchContainer.children.takeWhile
            (fun p => !(touchContainer.obj p).handleEvent touchPressed)
          ++ ((touchContainer.children.dropWhile
                (fun p => !(touchContainer.obj p).handleEvent touchPressed)).head?).toList
    ∧ (touchContainer.handleEvent touchPressed).ret
        = touchContainer.children.any (fun p => (touchContainer.obj p).handleEvent touchPressed)
    ∧ ((∀ p ∈ touchContainer.children, (touchContainer.obj p).handleEvent touchPressed = false) →
        (touchContainer.handleEvent touchPressed).calls = touchContainer.children
        ∧ (touchContainer.handleEvent touchPressed).ret = false)
    ∧ (touchContainer.handleEvent touchPressed).state = touchContainer :=
  touch_dispatch touchContainer touchPressed rfl (Or.inl rfl)

/-- C7: `Container::handleEvent` changes the focused child only when the
container is not hidden, the event is a ButtonPressed of DPAD_UP, DPAD_DOWN,
DPAD_LEFT or DPAD_RIGHT, a focused child exists and that child did not
consume the event; in every other case the focused pointer (indeed the whole
container) is as before; and when the focused child of a visible container
consumes a ButtonPressed, the container returns true. -/
theorem handleEvent_focus_frame (c : Container) (e : InputEvent) :
    ((c.handleEvent e).state.focused ≠ c.focused →
        c.hidden = false ∧ e.type = EventType.ButtonPressed
        ∧ (e.button = Button.DPAD_UP ∨ e.button = Button.DPAD_DOWN
            ∨ e.button = Button.DPAD_LEFT ∨ e.button = Button.DPAD_RIGHT)
        ∧ ∃ f, c.focused = some f ∧ (c.obj f).handleEvent e = false)
    ∧ (¬ (c.hidden = false ∧ e.type = EventType.ButtonPressed
          ∧ (e.button = Button.DPAD_UP ∨ e.button = Button.DPAD_DOWN
              ∨ e.button = Button.DPAD_LEFT ∨ e.button = Button.DPAD_RIGHT)
          ∧ ∃ f, c.focused = some f ∧ (c.obj f).handleEvent e = false) →
        (c.handleEvent e).state = c)
    ∧ (∀ f, c.hidden = false → e.type = EventType.ButtonPressed → c.focused = some f →
        (c.obj f).handleEvent e = true → (c.handleEvent e).ret = true) := by
  have hcases : (c.handleEvent e).state = c
      ∨ (c.hidden = false ∧ e.type = EventType.ButtonPressed
        ∧ (e.button = Button.DPAD_UP ∨ e.button = Button.DPAD_DOWN
            ∨ e.button = Button.DPAD_LEFT ∨ e.button = Button.DPAD_RIGHT)
        ∧ ∃ f, c.focused = some f ∧ (c.obj f).handleEvent e = false) := by
    rcases handleEvent_state c e with hs | ⟨hv, ht, hb, f, hf, hn, -⟩
    · exact Or.inl hs
    · right
      refine ⟨hv, ht, ?_, f, hf, hn⟩
      cases hbt : e.button with
      | other k => rw [hbt] at hb; simp [Button.isDpad] at hb
      | DPAD_RIGHT => simp
      | DPAD_LEFT => simp
      | DPAD_UP => simp
      | DPAD_DOWN => simp
  refine ⟨?_, ?_, ?_⟩
  · intro hne
    rcases hcases with hs | h
    · rw [hs] at hne; exact absurd rfl hne
    · exact h
  · intro hnot
    rcases hcases with hs | h
    · exact hs
    · exact absurd h hnot
  · intro f hv ht hf hc
    unfold Container.handleEvent
    rw [hv, ht, hf]
    simp [hc]

/-- C10: a hidden container's `handleEvent` returns false for every event,
invokes `handleEvent` on none of its children and leaves the focused child
(indeed the whole container) unchanged. -/
theorem hidden_ignores_event (c : Container) (e : InputEvent) (h : c.hidden = true) :
    (c.handleEvent e).ret = false
    ∧ (c.handleEvent e).calls = []
    ∧ (c.handleEvent e).state.focused = c.focused
    ∧ (c.handleEvent e).state = c := by
  rw [handleEvent_hidden c e h]
  exact ⟨rfl, rfl, rfl, rfl⟩

/-- C10 witness: `hidden_ignores_event` at `hiddenContainer` and a
d-pad-right press. -/
theorem hidden_ignores_event_witness :
    (hiddenContainer.handleEvent pressRight).ret = false
    ∧ (hiddenContainer.handleEvent pressRight).calls = []
    ∧ (hiddenContainer.handleEvent pressRight).state.focused = hiddenContainer.focused
    ∧ (hiddenContainer.handleEvent pressRight).state = hiddenContainer :=
  hidden_ignores_event hiddenContainer pressRight rfl

end Aether

/-! ## Claims on `requests::request` -/

namespace requests

/-- C8 (evaluation of the code where both `curl_easy_init` and `fopen`
succeed): the handle is configured for one POST to the fixed URL with the
fixed body and performed once, but neither a write callback nor a sink is
ever set on it, so the response body goes to libcurl's default sink and the
freshly truncated response.json stays empty whatever the body is. -/
theorem request_sets_no_writer :
    request ⟨true, true⟩ =
      [ Call.curl_easy_init true,
        Call.fopen "response.json" "wb" true,
        Call.curl_easy_setopt .CUSTOMREQUEST (.str "POST"),
        Call.curl_easy_setopt .URL (.str "https://armconverter.com/api/convert"),
        Call.curl_easy_setopt .FOLLOWLOCATION (.long 1),
        Call.curl_easy_setopt .DEFAULT_PROTOCOL (.str "https"),
        Call.curl_easy_setopt .POSTFIELDS (.str data),
        Call.curl_easy_perform,
        Call.curl_easy_cleanup true ]
    ∧ writeCallback (request ⟨true, true⟩) = none
    ∧ writeSink (request ⟨true, true⟩) = none
    ∧ ∀ body, responseJson (request ⟨true, true⟩) body = some [] := by
  refine ⟨rfl, rfl, rfl, fun body => ?_⟩
  simp [responseJson, request, fileStep, writeSink]

/-- C9 (as stated, refuted): when the handle was created and opening
response.json fails, `requests::request` calls `curl_easy_cleanup` on the
handle before it returns. -/
theorem request_open_failed_counterexample :
    request ⟨true, false⟩ =
      [ Call.curl_easy_init true,
        Call.fopen "response.json" "wb" false,
        Call.curl_easy_cleanup true ]
    ∧ Call.curl_easy_cleanup true ∈ request ⟨true, false⟩ := by
  refine ⟨rfl, ?_⟩
  simp [request]

/-- C9 (amended): on every path where the handle was created,
`requests::request` releases it: `curl_easy_cleanup` is called on the handle
exactly once, as the last call; on the path where opening response.json
fails, no option is set and no transfer is performed before that. -/
theorem request_releases_handle (env : Outcome) (hi : env.initOk = true) :
    (request env).getLast? = some (Call.curl_easy_cleanup true)
    ∧ (request env).count (Call.curl_easy_cleanup true) = 1
    ∧ (env.fopenOk = false →
        Call.curl_easy_perform ∉ request env
        ∧ ∀ o v, Call.curl_easy_setopt o v ∉ request env) := by
  obtain ⟨i, f⟩ := env
  simp only at hi
  subst hi
  cases f
  · refine ⟨rfl, ?_, fun _ => ⟨?_, ?_⟩⟩
    · simp [request]
    · simp [request]
    · intro o v
      simp [request]
  · refine ⟨rfl, ?_, fun h => Bool.noConfusion h⟩
    simp [request]

/-- C9 witness: `request_releases_handle` on the path where the handle is
created and the file cannot be opened. -/
theorem request_releases_handle_witness :
    (request ⟨true, false⟩).getLast? = some (Call.curl_easy_cleanup true)
    ∧ (request ⟨true, false⟩).count (Call.curl_easy_cleanup true) = 1
    ∧ ((⟨true, false⟩ : Outcome).fopenOk = false →
        Call.curl_easy_perform ∉ request ⟨true, false⟩
        ∧ ∀ o v, Call.curl_easy_setopt o v ∉ request ⟨true, false⟩) :=
  request_releases_handle ⟨true, false⟩ rfl

end requests

/-! ## Claims on the order of the search -/

namespace Aether

end Aether

/-! ## Claims on insertion and on the symmetry of the directions -/

namespace Aether

theorem addElement_children (c : Container) (e : Ptr) :
    (c.addElement e).children = c.children ++ [e] := by
  unfold Container.addElement
  rw [addElementAt_children]
  simp

/-- After adding the elements `es` in order, the children are extended by `es`
and a null focus has become the first of `es` that is selectable or has a
selectable descendant. -/
theorem foldl_addElement (obj : Ptr → Element) (es : List Ptr) (c : Container)
    (hsel : ∀ p, (c.obj p).selectable = (obj p).selectable
      ∧ (c.obj p).hasSelectable = (obj p).hasSelectable) :
    (es.foldl Container.addElement c).children = c.children ++ es
    ∧ (es.foldl Container.addElement c).focused =
        match c.focused with
        | some f => some f
        | none => es.find? (fun p => (obj p).selectable || (obj p).hasSelectable) := by
  induction es generalizing c with
  | nil =>
    constructor
    · simp
    · cases hf : c.focused <;> simp [hf]
  | cons e rest ih =>
    simp only [List.foldl_cons]
    have hsel2 : ∀ p, ((c.addElement e).obj p).selectable = (obj p).selectable
        ∧ ((c.addElement e).obj p).hasSelectable = (obj p).hasSelectable := by
      intro p
      have h1 := addElementAt_selectable c e c.children.length p
      exact ⟨h1.1.trans (hsel p).1, h1.2.trans (hsel p).2⟩
    obtain ⟨ih1, ih2⟩ := ih (c.addElement e) hsel2
    constructor
    · rw [ih1, addElement_children]
      simp
    · rw [ih2]
      have hfoc : (c.addElement e).focused =
          if ((c.obj e).selectable = true ∨ (c.obj e).hasSelectable = true) ∧ c.focused = none
          then some e else c.focused := addElementAt_focused c e c.children.length
      rw [hfoc, (hsel e).1, (hsel e).2]
      cases hf : c.focused with
      | some f => simp
      | none =>
        by_cases hp : (obj e).selectable = true ∨ (obj e).hasSelectable = true
        · have hb : ((obj e).selectable || (obj e).hasSelectable) = true := by
            simpa using hp
          simp [hp, List.find?_cons, hb]
        · have hb : ((obj e).selectable || (obj e).hasSelectable) = false := by
            simpa using hp
          simp [hp, List.find?_cons, hb]

/-- C12: `addElementAt(e, i)` inserts `e` at position `i` (for `i` within the
children: the element at `i` is `e`, the children before `i` keep their
place and those from `i` on move one up); `addElement(e)` is `addElementAt`
at the end and appends `e`; if the container had no focused child and `e` is
selectable or has a selectable descendant, `e` becomes the focused child; if
the container already had a focused child, or `e` is neither, the focused
child is unchanged.  Hence after adding the elements `es` in order to an
empty container the children are `es` and the focus is the first of `es`
that is selectable or has a selectable descendant (null if there is none). -/
theorem addElementAt_insert_and_focus (c : Container) (e : Ptr) (i : Nat)
    (obj : Ptr → Element) (hidden : Bool) (es : List Ptr) :
    (c.addElementAt e i).children = c.children.take i ++ e :: c.children.drop i
    ∧ (i ≤ c.children.length →
        (c.addElementAt e i).children[i]? = some e
        ∧ (c.addElementAt e i).children.length = c.children.length + 1
        ∧ (∀ j, j < i → (c.addElementAt e i).children[j]? = c.children[j]?)
        ∧ (∀ j, i ≤ j → (c.addElementAt e i).children[j + 1]? = c.children[j]?))
    ∧ c.addElement e = c.addElementAt e c.children.length
    ∧ (c.addElement e).children = c.children ++ [e]
    ∧ (c.focused = none →
        ((c.obj e).selectable = true ∨ (c.obj e).hasSelectable = true) →
        (c.addElementAt e i).focused = some e)
    ∧ ((c.focused ≠ none
          ∨ ¬ ((c.obj e).selectable = true ∨ (c.obj e).hasSelectable = true)) →
        (c.addElementAt e i).focused = c.focused)
    ∧ (es.foldl Container.addElement (Container.new obj hidden)).children = es
    ∧ (es.foldl Container.addElement (Container.new obj hidden)).focused
        = es.find? (fun p => (obj p).selectable || (obj p).hasSelectable) := by
  have hfold := foldl_addElement obj es (Container.new obj hidden) (fun _ => ⟨rfl, rfl⟩)
  refine ⟨addElementAt_children c e i, ?_, rfl, addElement_children c e, ?_, ?_, ?_, ?_⟩
  · intro hi
    rw [addElementAt_children]
    have hlen : (c.children.take i).length = i := by
      rw [List.length_take]; exact Nat.min_eq_left hi
    refine ⟨?_, ?_, ?_, ?_⟩
    · rw [List.getElem?_append_right (by rw [hlen]), hlen]
      simp
    · rw [List.length_append, List.length_cons, hlen, List.length_drop]
      omega
    · intro j hj
      rw [List.getElem?_append_left (by rw [hlen]; exact hj)]
      exact List.getElem?_take_of_lt hj
    · intro j hj
      rw [List.getElem?_append_right (by rw [hlen]; omega), hlen]
      have hk : j + 1 - i = (j - i) + 1 := by omega
      rw [hk, List.getElem?_cons_succ, List.getElem?_drop]
      congr 1
      omega
  · intro hf hs
    rw [addElementAt_focused, if_pos ⟨hs, hf⟩]
  · intro h
    rw [addElementAt_focused, if_neg]
    rintro ⟨hs, hf⟩
    rcases h with h | h
    · exact h hf
    · exact h hs
  · simpa [Container.new] using hfold.1
  · simpa [Container.new] using hfold.2

/-- C12 witness: `addElementAt_insert_and_focus` for the objects of
`labelObjects`: inserting the selectable object 1 at position 0 of the
children [0] of an unfocused container puts it first and focuses it, and
adding 0, 1, 2 to an empty container focuses object 1, the first selectable
one. -/
theorem addElementAt_insert_and_focus_witness :
    (({ obj := labelObjects, hidden := false, children := [0], focused := none } :
        Container).addElementAt 1 0).children = [1, 0]
    ∧ (({ obj := labelObjects, hidden := false, children := [0], focused := none } :
        Container).addElementAt 1 0).focused = some 1
    ∧ ([0, 1, 2].foldl Container.addElement (Container.new labelObjects false)).children
        = [0, 1, 2]
    ∧ ([0, 1, 2].foldl Container.addElement (Container.new labelObjects false)).focused
        = some 1 :=
  have h := addElementAt_insert_and_focus
    { obj := labelObjects, hidden := false, children := [0], focused := none } 1 0
    labelObjects false [0, 1, 2]
  ⟨h.1, h.2.2.2.2.1 rfl (Or.inl rfl), h.2.2.2.2.2.2.1, h.2.2.2.2.2.2.2⟩

/-- C13: the direction tests and the distances are mirror-symmetric: for all
element boxes `a` and `b`, `b` passes the right test from `a` iff `a` passes
the left test from `b`, and `b` passes the down test from `a` iff `a` passes
the up test from `b`; the distance for moving right from `a` to `b` equals
the distance for moving left from `b` to `a`, and likewise for down and
up. -/
theorem direction_mirror (a b : Element) :
    (checkRight a b = true ↔ checkLeft b a = true)
    ∧ (checkDown a b = true ↔ checkUp b a = true)
    ∧ distRight a b = distLeft b a
    ∧ distDown a b = distUp b a
    ∧ checkRight a b = checkLeft b a
    ∧ checkDown a b = checkUp b a := by
  refine ⟨Iff.rfl, Iff.rfl, ?_, ?_, rfl, rfl⟩
  · unfold distRight distLeft
    have h1 : a.x + a.w - b.x = -(b.x - (a.x + a.w)) := by ring
    have h2 : a.y + half a.h - (b.y + half b.h) = -(b.y + half b.h - (a.y + half a.h)) := by
      ring
    rw [h1, h2, sqrtPow_neg_neg]
  · unfold distDown distUp
    have h1 : a.x + half a.w - (b.x + half b.w) = -(b.x + half b.w - (a.x + half a.w)) := by
      ring
    have h2 : a.y + a.h - b.y = -(b.y - (a.y + a.h)) := by ring
    rw [h1, h2, sqrtPow_neg_neg]

end Aether

